import Mathlib

/-!
Shallow embedding of the mpc-manager coordination core (CoinFabrik/mpc-manager)
and verification of its specification claims.

Rust sources embedded here:
  * `src/state/parameters.rs` — `Parameters`, validation, `threshold_reached`
  * `src/state/session.rs`   — `Session`, `signup`, `login`, party numbering
  * `src/state/group.rs`     — `Group`, `add_client`, `drop_client`, sessions
  * `src/state.rs`           — `State` (registry) and its operations
  * `src/service/session_service.rs`, `src/service.rs` — the `session_message`
    handler and the infallible `serve` wrapper

Modelling conventions:
  * `Uuid` identifiers (`ClientId`, `GroupId`, `SessionId`) and the `u16`
    `SessionPartyNumber` all become `Nat` (plain `Nat` is used rather than
    type aliases so that arithmetic automation sees the standard instances).
  * `u16` values become `Nat`; the only arithmetic the source performs on a
    `u16` is `party + 1` and the cast `(i + 1) as u16` inside
    `get_next_party_number`, both carried with an explicit `% 65536`
    (release-mode wrap-around semantics).
  * `HashMap<K, V>` becomes an association list; `insert` replaces the value
    of an existing key in place and otherwise appends.
  * `HashSet<T>` becomes a duplicate-free list; `insert` appends when absent.
  * `anyhow::Error` becomes the sum type `AnyError` of the domain errors.
  * JSON values are restricted to the payload shapes this code serializes;
    client payloads are uninterpreted (`Value.num`).
-/

deriving instance DecidableEq for Except

namespace Mpc


/-- JSON values, restricted to the shapes serialized by the embedded code:
uninterpreted client payloads and the `SessionMessageNotification` shape. -/
inductive Value
  /-- An uninterpreted client-supplied JSON payload. -/
  | num (n : Nat)
  /-- Serialized `SessionMessageNotification {groupId, sessionId, sender, message}`. -/
  | sessionMsg (group_id : Nat) (session_id : Nat)
      (sender : Nat) (message : Value)
deriving DecidableEq

/-- Embeds `SessionValue = Option<Value>` from `session.rs`. -/
abbrev SessionValue := Option Value

/-- Embeds `SessionKind` from `session.rs`. -/
inductive SessionKind
  | Keygen
  | Sign
deriving DecidableEq

/-- Embeds `ParametersError` from `parameters.rs`. -/
inductive ParametersError
  | InvalidThreshold (t : Nat)
  | InvalidParties (n : Nat)
deriving DecidableEq

/-- Embeds `SessionError` from `session.rs`. -/
inductive SessionError
  | PartyNumberAlreadyOccupied (pn : Nat)
deriving DecidableEq

/-- Embeds `GroupError` from `group.rs`. -/
inductive GroupError
  | GroupFull
deriving DecidableEq

/-- Embeds `StateError` from `state.rs` together with the other domain errors that
travel through `anyhow::Result` (`SessionError`, `GroupError`). -/
inductive AnyError
  | GroupNotFound (gid : Nat)
  | SessionNotFound (sid : Nat) (gid : Nat)
  | GroupIsFull (gid : Nat)
  | PartyNotFound (pn : Nat)
  | ClientNotFound (c : Nat)
  | GroupFullErr
  | PartyNumberAlreadyOccupied (pn : Nat)
deriving DecidableEq

/-- Embeds `HashMap::insert`: replace the value at an existing key, else append. -/
def mapInsert {α : Type} (m : List (Nat × α)) (k : Nat) (v : α) : List (Nat × α) :=
  if m.any (fun kv => kv.1 = k) then
    m.map (fun kv => if kv.1 = k then (k, v) else kv)
  else
    m ++ [(k, v)]

/-- Embeds `HashMap::get`. -/
def mapGet {α : Type} (m : List (Nat × α)) (k : Nat) : Option α :=
  (m.find? (fun kv => kv.1 = k)).map (fun kv => kv.2)

/-- Embeds `HashSet::insert`. -/
def setInsert (l : List Nat) (c : Nat) : List Nat :=
  if c ∈ l then l else l ++ [c]

/-- Embeds `Parameters` from `parameters.rs`; `n` and `t` are `u16` in the source. -/
structure Parameters where
  n : Nat
  t : Nat
deriving DecidableEq

/-- Embeds `Parameters::validate`. -/
def Parameters.validate (p : Parameters) : Except ParametersError Unit :=
  if p.n < 2 then .error (.InvalidParties p.n)
  else if p.t = 0 ∨ p.n ≤ p.t then .error (.InvalidThreshold p.t)
  else .ok ()

/-- Embeds `Parameters::new`: build the record, validate it, return it. -/
def Parameters.new (n t : Nat) : Except ParametersError Parameters :=
  match (Parameters.mk n t).validate with
  | .error e => .error e
  | .ok _ => .ok (Parameters.mk n t)

/-- Embeds `Parameters::threshold_reached`. -/
def Parameters.threshold_reached (p : Parameters) (kind : SessionKind)
    (parties : Nat) : Bool :=
  match kind with
  | .Keygen => parties == p.n
  | .Sign => decide (p.t < parties)

/-- Embeds `Session` from `session.rs`. -/
structure Session where
  id : Nat
  kind : SessionKind
  value : SessionValue
  party_signups : List (Nat × Nat)
  occupied_party_numbers : List Nat
  finished : List Nat
deriving DecidableEq

/-- Embeds `Session::new`. -/
def Session.new (id : Nat) (kind : SessionKind) (value : SessionValue) : Session :=
  { id := id, kind := kind, value := value,
    party_signups := [], occupied_party_numbers := [], finished := [] }

/-- Embeds `Session::get_party_number`: first map entry whose value is the client. -/
def Session.get_party_number (s : Session) (client_id : Nat) :
    Option Nat :=
  (s.party_signups.find? (fun kv => kv.2 = client_id)).map (fun kv => kv.1)

/-- Embeds `Session::is_client_in_session`. -/
def Session.is_client_in_session (s : Session) (client_id : Nat) : Bool :=
  s.party_signups.any (fun kv => kv.2 = client_id)

/-- Embeds `Session::get_client_id`. -/
def Session.get_client_id (s : Session) (party_number : Nat) :
    Option Nat :=
  (s.party_signups.find? (fun kv => kv.1 = party_number)).map (fun kv => kv.2)

/-- Embeds `Session::get_all_client_ids`. -/
def Session.get_all_client_ids (s : Session) : List Nat :=
  s.party_signups.map (fun kv => kv.2)

/-- Embeds `Session::get_number_of_clients`. -/
def Session.get_number_of_clients (s : Session) : Nat :=
  s.party_signups.length

/-- The scan loop of `Session::get_next_party_number`: walk the sorted list
with the running index `i`; at the first position where `i + 1 ≠ occupied[i]`
return `(i + 1) as u16`. -/
def nextScan : List Nat → Nat → Option Nat
  | [], _ => none
  | p :: rest, i => if i + 1 ≠ p then some ((i + 1) % 65536) else nextScan rest (i + 1)

/-- Embeds `Session::get_next_party_number`: the scan loop, then the fall-through on
the last element (`party + 1`, a `u16` addition), or `1` when empty. -/
def Session.get_next_party_number (s : Session) : Nat :=
  match nextScan s.occupied_party_numbers 0 with
  | some pn => pn
  | none =>
    match s.occupied_party_numbers.getLast? with
    | some party => (party + 1) % 65536
    | none => 1

/-- Embeds `Session::add_party`: push the party number, sort, insert into the map. -/
def Session.add_party (s : Session) (client_id : Nat)
    (party_number : Nat) : Session :=
  { s with
    occupied_party_numbers :=
      (s.occupied_party_numbers ++ [party_number]).mergeSort (· ≤ ·),
    party_signups := mapInsert s.party_signups party_number client_id }

/-- Embeds `Session::signup`; returns the updated session and the party number
(the source mutates in place and returns the number). The source unwraps
`get_party_number`, which is `some` whenever `is_client_in_session` holds;
the default of `getD` is never reached. -/
def Session.signup (s : Session) (client_id : Nat) :
    Session × Nat :=
  if s.is_client_in_session client_id then
    (s, (s.get_party_number client_id).getD 0)
  else
    let party_number := s.get_next_party_number
    (s.add_party client_id party_number, party_number)

/-- Embeds `Session::login`. -/
def Session.login (s : Session) (client_id : Nat)
    (party_number : Nat) : Except SessionError Session :=
  if s.is_client_in_session client_id then .ok s
  else if s.occupied_party_numbers.contains party_number then
    .error (.PartyNumberAlreadyOccupied party_number)
  else .ok (s.add_party client_id party_number)

/-- Embeds `impl Clone for Session`: keeps id, kind and value, drops membership. -/
def Session.cloneWire (s : Session) : Session :=
  { id := s.id, kind := s.kind, value := s.value,
    party_signups := [], occupied_party_numbers := [], finished := [] }

/-- Embeds `Group` from `group.rs`. -/
structure Group where
  id : Nat
  params : Parameters
  sessions : List (Nat × Session)
  clients : List Nat
deriving DecidableEq

/-- Embeds `Group::new`. -/
def Group.new (id : Nat) (params : Parameters) : Group :=
  { id := id, params := params, sessions := [], clients := [] }

/-- Embeds `Group::add_client`: reject when `|clients| ≥ n`, else set-insert. -/
def Group.add_client (g : Group) (client_id : Nat) : Except GroupError Group :=
  if g.params.n ≤ g.clients.length then .error .GroupFull
  else .ok { g with clients := setInsert g.clients client_id }

/-- Embeds `Group::drop_client`: remove from `clients` (sessions are not scrubbed). -/
def Group.drop_client (g : Group) (client_id : Nat) : Group :=
  { g with clients := g.clients.filter (fun c => c ≠ client_id) }

/-- Embeds `Group::add_session` with the fresh session id passed explicitly
(`Uuid::new_v4` in the source); returns the updated group and the clone
handed back to the caller. -/
def Group.add_session (g : Group) (sid : Nat) (kind : SessionKind)
    (value : SessionValue) : Group × Session :=
  let session := Session.new sid kind value
  ({ g with sessions := mapInsert g.sessions sid session }, session.cloneWire)

/-- Embeds `Group::get_session`. -/
def Group.get_session (g : Group) (sid : Nat) : Option Session :=
  mapGet g.sessions sid

/-- Embeds `Group::is_empty`. -/
def Group.is_empty (g : Group) : Bool :=
  g.clients.length == 0

/-- Embeds `Group::is_full`. -/
def Group.is_full (g : Group) : Bool :=
  g.clients.length == g.params.n

/-- Embeds `impl Clone for Group`: keeps id and params, drops membership. -/
def Group.cloneWire (g : Group) : Group :=
  { id := g.id, params := g.params, sessions := [], clients := [] }

/-- Embeds `State` from `state.rs`. The client table maps ids to outbound sinks;
the sinks are IO handles, so only the key set is modelled. -/
structure State where
  clients : List Nat
  groups : List (Nat × Group)
deriving DecidableEq

/-- Embeds `State::default()`: empty registry. -/
def State.empty : State := { clients := [], groups := [] }

/-- Embeds `State::add_client` (registration of a connection's outbound sink). -/
def State.register_client (st : State) (id : Nat) : State :=
  { st with clients := setInsert st.clients id }

/-- Embeds `State::drop_client`: drop the client from every group, remove the groups
that became empty, then remove the client from the client table. -/
def State.drop_client (st : State) (id : Nat) : State :=
  let dropped := st.groups.map (fun gp => (gp.1, gp.2.drop_client id))
  { clients := st.clients.filter (fun c => c ≠ id),
    groups := dropped.filter (fun gp => !gp.2.is_empty) }

/-- Embeds `State::add_group` with the fresh group id passed explicitly
(`Uuid::new_v4` in the source); returns the updated state and the sanitised
clone handed back to the caller. -/
def State.add_group (st : State) (gid : Nat) (params : Parameters) :
    State × Group :=
  let group := Group.new gid params
  ({ st with groups := mapInsert st.groups gid group }, group.cloneWire)

/-- Embeds `State::join_group`: validate existence and fullness under the read lock,
then insert under the write lock via `Group::add_client`. -/
def State.join_group (st : State) (group_id : Nat) (client_id : Nat) :
    Except AnyError (State × Group) :=
  match mapGet st.groups group_id with
  | none => .error (.GroupNotFound group_id)
  | some group =>
    if group.is_full then .error (.GroupIsFull group_id)
    else
      match group.add_client client_id with
      | .error _ => .error .GroupFullErr
      | .ok group2 =>
        .ok ({ st with groups := mapInsert st.groups group_id group2 },
             group2.cloneWire)

/-- Embeds `State::add_session`. -/
def State.add_session (st : State) (group_id : Nat) (sid : Nat)
    (kind : SessionKind) (value : SessionValue) :
    Except AnyError (State × Group × Session) :=
  match mapGet st.groups group_id with
  | none => .error (.GroupNotFound group_id)
  | some group =>
    let (group2, session) := group.add_session sid kind value
    .ok ({ st with groups := mapInsert st.groups group_id group2 },
         group2.cloneWire, session)

/-- Embeds `State::signup_session`. -/
def State.signup_session (st : State) (client_id : Nat)
    (group_id : Nat) (session_id : Nat) :
    Except AnyError (State × Group × Session × Nat × Bool) :=
  match mapGet st.groups group_id with
  | none => .error (.GroupNotFound group_id)
  | some group =>
    match mapGet group.sessions session_id with
    | none => .error (.SessionNotFound session_id group_id)
    | some session =>
      let (session2, party_index) := session.signup client_id
      let parties := session2.get_number_of_clients
      let threshold := group.params.threshold_reached session2.kind parties
      let group2 := { group with sessions := mapInsert group.sessions session_id session2 }
      .ok ({ st with groups := mapInsert st.groups group_id group2 },
           group2.cloneWire, session2.cloneWire, party_index, threshold)

/-- Embeds `State::login_session`. -/
def State.login_session (st : State) (client_id : Nat)
    (group_id : Nat) (session_id : Nat)
    (party_number : Nat) :
    Except AnyError (State × Group × Session × Bool) :=
  match mapGet st.groups group_id with
  | none => .error (.GroupNotFound group_id)
  | some group =>
    match mapGet group.sessions session_id with
    | none => .error (.SessionNotFound session_id group_id)
    | some session =>
      match session.login client_id party_number with
      | .error (.PartyNumberAlreadyOccupied pn) =>
        .error (.PartyNumberAlreadyOccupied pn)
      | .ok session2 =>
        let parties := session2.party_signups.length
        let threshold := group.params.threshold_reached session2.kind parties
        let group2 := { group with sessions := mapInsert group.sessions session_id session2 }
        .ok ({ st with groups := mapInsert st.groups group_id group2 },
             group2.cloneWire, session2.cloneWire, threshold)

/-- Embeds `State::get_party_number_from_client_id`. -/
def State.get_party_number_from_client_id (st : State) (group_id : Nat)
    (session_id : Nat) (client_id : Nat) :
    Except AnyError Nat :=
  match mapGet st.groups group_id with
  | none => .error (.GroupNotFound group_id)
  | some group =>
    match group.get_session session_id with
    | none => .error (.SessionNotFound session_id group_id)
    | some session =>
      match session.get_party_number client_id with
      | none => .error (.ClientNotFound client_id)
      | some pn => .ok pn

/-- Embeds `State::get_client_id_from_party_number`. -/
def State.get_client_id_from_party_number (st : State) (group_id : Nat)
    (session_id : Nat) (party_number : Nat) :
    Except AnyError Nat :=
  match mapGet st.groups group_id with
  | none => .error (.GroupNotFound group_id)
  | some group =>
    match group.get_session session_id with
    | none => .error (.SessionNotFound session_id group_id)
    | some session =>
      match session.get_client_id party_number with
      | none => .error (.PartyNotFound party_number)
      | some cid => .ok cid

/-- Embeds `State::validate_group_and_session`. -/
def State.validate_group_and_session (st : State) (group_id : Nat)
    (session_id : Nat) : Except AnyError Unit :=
  match mapGet st.groups group_id with
  | none => .error (.GroupNotFound group_id)
  | some group =>
    match group.get_session session_id with
    | none => .error (.SessionNotFound session_id group_id)
    | some _ => .ok ()

/-- Embeds `Notification` from `service/notification.rs`. -/
inductive Notification
  | group (group_id : Nat) (filter : List Nat) (method : String)
      (message : Value)
  | session (group_id : Nat) (session_id : Nat)
      (filter : List Nat) (method : String) (message : Value)
  | relay (method : String) (messages : List (Nat × Value))
deriving DecidableEq

/-- Embeds `json_rpc2::Error`, restricted to the two codes this code produces.
The `data` of `InvalidParams` is `e.to_string()` in the source; the
underlying domain error is carried instead of its string rendering. -/
inductive RpcError
  | methodNotFound (name : String) (id : Option Nat)
  | invalidParams (id : Option Nat) (data : AnyError)
deriving DecidableEq

/-- Embeds `json_rpc2::Response`: either a result or an error, tagged with the
request id. -/
inductive RpcResponse
  | result (id : Option Nat) (v : Value)
  | failure (id : Option Nat) (e : RpcError)
deriving DecidableEq

/-- Embeds `SessionMessageRequest` from `session_service.rs`, already deserialized
(the JSON-RPC envelope decoding is external to this repository). -/
structure SessionMessageRequest where
  id : Option Nat
  group_id : Nat
  session_id : Nat
  receiver : Option Nat
  message : Value
deriving DecidableEq

/-- Embeds `SessionService::session_message`: resolve the caller's party number,
validate group and session, then push a `Relay` (direct receiver) or
`Session` (broadcast) notification; on success the handler returns `None`
(no response), on any failure it returns an `InvalidParams` error. -/
def session_message (st : State) (req : SessionMessageRequest)
    (notifications : List Notification) (client_id : Nat) :
    Except RpcError (Option RpcResponse × List Notification) :=
  match st.get_party_number_from_client_id req.group_id req.session_id client_id with
  | .error e => .error (.invalidParams req.id e)
  | .ok self_party_number =>
    match st.validate_group_and_session req.group_id req.session_id with
    | .error e => .error (.invalidParams req.id e)
    | .ok _ =>
      let res := Value.sessionMsg req.group_id req.session_id
        self_party_number req.message
      match req.receiver with
      | some party_number =>
        match st.get_client_id_from_party_number req.group_id req.session_id
            party_number with
        | .error e => .error (.invalidParams req.id e)
        | .ok receiver_client_id =>
          .ok (none,
            notifications ++ [.relay "session_message" [(receiver_client_id, res)]])
      | none =>
        .ok (none,
          notifications ++
            [.session req.group_id req.session_id [] "session_message" res])

/-- Embeds `ServiceHandler::serve` specialised to the `session_message` route:
a handler error is converted into a response to the caller
(`Err(e) => Some((request, e).into())`). -/
def serve_session_message (st : State) (req : SessionMessageRequest)
    (notifications : List Notification) (client_id : Nat) :
    Option RpcResponse × List Notification :=
  match session_message st req notifications client_id with
  | .ok out => out
  | .error e => (some (.failure req.id e), notifications)

/-!
## Property definitions used in theorem statements
-/

/-- Predicate: `pn` is the smallest positive integer not present in `occ`. -/
def IsLeastUnusedPositive (occ : List Nat)
    (pn : Nat) : Prop :=
  1 ≤ pn ∧ pn ∉ occ ∧ ∀ m, 1 ≤ m → m ∉ occ → pn ≤ m

/-- Invariant I2 of the specification: `occupied_party_numbers` is strictly
increasing and equal, as a set, to the key set of `party_signups`. -/
def SessionInvariant (s : Session) : Prop :=
  List.Sorted (· < ·) s.occupied_party_numbers ∧
  ∀ x, x ∈ s.occupied_party_numbers ↔ x ∈ s.party_signups.map (fun kv => kv.1)

/-- Session states reachable by the session operations as implemented:
`signup`, and successful `login` with an arbitrary client-supplied `u16`
party number. -/
inductive SessionReachable : Session → Prop
  | init (id : Nat) (kind : SessionKind) (value : SessionValue) :
      SessionReachable (Session.new id kind value)
  | signup (s : Session) (c : Nat) :
      SessionReachable s → SessionReachable (s.signup c).1
  | login (s s2 : Session) (c : Nat) (p : Nat) :
      SessionReachable s → p < 65536 → s.login c p = .ok s2 →
      SessionReachable s2

/-- Session states reachable when every login carries a positive `u16` party
number and no signup is performed on a session already holding all 65535
positive `u16` party numbers. -/
inductive SessionReachablePos : Session → Prop
  | init (id : Nat) (kind : SessionKind) (value : SessionValue) :
      SessionReachablePos (Session.new id kind value)
  | signup (s : Session) (c : Nat) :
      SessionReachablePos s → s.occupied_party_numbers.length < 65535 →
      SessionReachablePos (s.signup c).1
  | login (s s2 : Session) (c : Nat) (p : Nat) :
      SessionReachablePos s → 1 ≤ p → p < 65536 → s.login c p = .ok s2 →
      SessionReachablePos s2

/-!
## Helper lemmas
-/

/-- Computation bridge for `Vec::sort` on naturals: `mergeSort` coincides with `insertionSort`,
which computes by `decide`/`rfl`. -/
theorem mergeSortLe_eval (l : List Nat) :
    l.mergeSort (· ≤ ·) = List.insertionSort (· ≤ ·) l :=
  List.mergeSort_eq_insertionSort (r := (· ≤ ·)) l

/-- If the scan loop falls through, the list is exactly the dense run
`i+1, i+2, …, i+length`, and its last element is `i + length`. -/
theorem nextScan_none (l : List Nat) :
    ∀ i, nextScan l i = none →
      (∀ x, x ∈ l ↔ i + 1 ≤ x ∧ x ≤ i + l.length) ∧
      (l ≠ [] → l.getLast? = some (i + l.length)) := by
  induction l with
  | nil =>
    intro i _
    refine ⟨fun x => ?_, fun h => absurd rfl h⟩
    simp only [List.not_mem_nil, List.length_nil, Nat.add_zero, false_iff,
      not_and, not_le]
    omega
  | cons p rest ih =>
    intro i h
    simp only [nextScan] at h
    by_cases hp : i + 1 = p
    · rw [if_neg (by omega)] at h
      have hr := ih (i + 1) h
      constructor
      · intro x
        have hx := hr.1 x
        simp only [List.mem_cons, List.length_cons]
        rw [hx]
        omega
      · intro _
        cases rest with
        | nil =>
          simp only [List.getLast?_singleton, List.length_cons, List.length_nil,
            Option.some.injEq]
          omega
        | cons q rest2 =>
          rw [List.getLast?_cons_cons]
          have h2 := hr.2 (by simp)
          rw [h2]
          simp only [List.length_cons, Option.some.injEq]
          omega
    · rw [if_pos (by omega)] at h
      exact absurd h (by simp)

/-- If the scan loop returns `some pn` on a strictly increasing tail whose
elements all exceed `i`, then `pn` is the least number `≥ i + 1` absent from
the tail, and lies within `i + 1 … i + length`. -/
theorem nextScan_some (l : List Nat) :
    ∀ i pn, List.Sorted (· < ·) l → (∀ x ∈ l, i + 1 ≤ x) →
      i + l.length < 65536 → nextScan l i = some pn →
      i + 1 ≤ pn ∧ pn ≤ i + l.length ∧ pn ∉ l ∧
      ∀ m, i + 1 ≤ m → m ∉ l → pn ≤ m := by
  induction l with
  | nil => simp [nextScan]
  | cons p rest ih =>
    intro i pn hsort hlb hbound h
    rw [List.sorted_cons] at hsort
    simp only [nextScan] at h
    simp only [List.length_cons] at hbound
    by_cases hp : i + 1 = p
    · rw [if_neg (by omega)] at h
      have hlb2 : ∀ x ∈ rest, i + 1 + 1 ≤ x := by
        intro x hx
        have := hsort.1 x hx
        omega
      have hr := ih (i + 1) pn hsort.2 hlb2 (by omega) h
      refine ⟨by omega, by simp only [List.length_cons]; omega, ?_, ?_⟩
      · simp only [List.mem_cons, not_or]
        exact ⟨by omega, hr.2.2.1⟩
      · intro m hm hnm
        simp only [List.mem_cons, not_or] at hnm
        exact hr.2.2.2 m (by omega) hnm.2
    · rw [if_pos (by omega)] at h
      have hple : i + 1 ≤ p := hlb p (by simp)
      have hpn : pn = i + 1 := by
        injection h with h2
        rw [Nat.mod_eq_of_lt (by omega)] at h2
        omega
      subst hpn
      refine ⟨le_refl _, by simp only [List.length_cons]; omega, ?_, ?_⟩
      · simp only [List.mem_cons, not_or]
        refine ⟨by omega, fun hc => ?_⟩
        have := hsort.1 _ hc
        omega
      · intro m hm _
        exact hm

/-- A strictly increasing list of naturals drawn from `[a, b)` has at most
`b - a` elements. -/
theorem sorted_lt_length_le (l : List Nat) :
    ∀ a b, List.Sorted (· < ·) l → (∀ x ∈ l, a ≤ x ∧ x < b) →
      l.length ≤ b - a := by
  induction l with
  | nil => intro a b _ _; simp
  | cons p rest ih =>
    intro a b hsort hr
    rw [List.sorted_cons] at hsort
    have h1 := hr p (by simp)
    have h2 := ih (p + 1) b hsort.2
      (fun x hx => ⟨hsort.1 x hx, (hr x (by simp [hx])).2⟩)
    simp only [List.length_cons]
    omega

/-- A weakly sorted list without duplicates is strictly sorted. -/
theorem sorted_lt_of_sorted_le_nodup (l : List Nat)
    (hs : List.Sorted (· ≤ ·) l) (hn : l.Nodup) :
    List.Sorted (· < ·) l :=
  (List.Pairwise.and hs hn).imp (fun h => lt_of_le_of_ne h.1 h.2)

/-- Pushing a fresh element and sorting keeps a strictly increasing list
strictly increasing, and adds exactly the new element to the members. -/
theorem push_sort_sorted (occ : List Nat) (pn : Nat)
    (hsort : List.Sorted (· < ·) occ) (hnew : pn ∉ occ) :
    List.Sorted (· < ·) ((occ ++ [pn]).mergeSort (· ≤ ·)) ∧
    ∀ x, x ∈ (occ ++ [pn]).mergeSort (· ≤ ·) ↔ x ∈ occ ∨ x = pn := by
  have hperm : ((occ ++ [pn]).mergeSort (· ≤ ·)).Perm (occ ++ [pn]) :=
    List.mergeSort_perm _ _
  have hle : List.Sorted (· ≤ ·) ((occ ++ [pn]).mergeSort (· ≤ ·)) :=
    List.sorted_mergeSort' _
  have hnodup : (occ ++ [pn]).Nodup := by
    rw [List.nodup_append]
    refine ⟨hsort.nodup, List.nodup_singleton _, ?_⟩
    intro a ha hb
    simp only [List.mem_singleton] at hb
    exact hnew (hb ▸ ha)
  refine ⟨sorted_lt_of_sorted_le_nodup _ hle (hperm.nodup_iff.mpr hnodup), ?_⟩
  intro x
  rw [hperm.mem_iff]
  simp

/-- Inserting a key absent from the map appends the new binding. -/
theorem mapInsert_fresh {α : Type} (m : List (Nat × α)) (k : Nat) (v : α)
    (h : ∀ kv ∈ m, kv.1 ≠ k) : mapInsert m k v = m ++ [(k, v)] := by
  have hany : m.any (fun kv => kv.1 = k) = false := by
    rw [List.any_eq_false]
    intro kv hkv
    simpa using h kv hkv
  unfold mapInsert
  rw [hany]
  simp

/-- Searching by value on a map whose values avoid `c`, after appending
`(k, c)`, yields `(k, c)`. -/
theorem find_value_append (m : List (Nat × Nat)) (k c : Nat)
    (h : ∀ kv ∈ m, kv.2 ≠ c) :
    (m ++ [(k, c)]).find? (fun kv => kv.2 = c) = some (k, c) := by
  induction m with
  | nil => simp
  | cons kv rest ih =>
    rw [List.cons_append, List.find?_cons_of_neg, ih (fun kv2 h2 => h kv2 (by simp [h2]))]
    simpa using h kv (by simp)

/-- Searching by value on a map whose values avoid `c`, after replacing the
value at an existing key `k` by `c`, yields `(k, c)`. -/
theorem find_value_replace (m : List (Nat × Nat)) (k c : Nat)
    (h : ∀ kv ∈ m, kv.2 ≠ c) (hk : ∃ kv ∈ m, kv.1 = k) :
    (m.map (fun kv => if kv.1 = k then (k, c) else kv)).find?
      (fun kv => kv.2 = c) = some (k, c) := by
  induction m with
  | nil => simp at hk
  | cons kv rest ih =>
    by_cases hkk : kv.1 = k
    · simp only [List.map_cons, if_pos hkk]
      rw [List.find?_cons_of_pos]
      simp
    · simp only [List.map_cons, if_neg hkk]
      rw [List.find?_cons_of_neg]
      · apply ih (fun kv2 h2 => h kv2 (by simp [h2]))
        rcases hk with ⟨kv2, hm, hkeq⟩
        rcases List.mem_cons.mp hm with he | hm2
        · exact absurd (he ▸ hkeq) hkk
        · exact ⟨kv2, hm2, hkeq⟩
      · simpa using h kv (by simp)

/-- Searching by value after `mapInsert` of a value fresh for the map. -/
theorem find_value_mapInsert (m : List (Nat × Nat)) (k c : Nat)
    (h : ∀ kv ∈ m, kv.2 ≠ c) :
    (mapInsert m k c).find? (fun kv => kv.2 = c) = some (k, c) := by
  unfold mapInsert
  by_cases hk : m.any (fun kv => kv.1 = k) = true
  · rw [if_pos hk]
    apply find_value_replace m k c h
    simpa using hk
  · rw [if_neg hk]
    exact find_value_append m k c h

/-- Characterisation of `is_client_in_session` as an existential over the map. -/
theorem is_client_iff (s : Session) (c : Nat) :
    s.is_client_in_session c = true ↔ ∃ kv ∈ s.party_signups, kv.2 = c := by
  simp [Session.is_client_in_session]

/-- A client not in the session occurs in no binding of the map. -/
theorem not_client_values (s : Session) (c : Nat)
    (hc : s.is_client_in_session c = false) :
    ∀ kv ∈ s.party_signups, kv.2 ≠ c := by
  intro kv hkv he
  rw [← Bool.not_eq_true] at hc
  exact hc ((is_client_iff s c).mpr ⟨kv, hkv, he⟩)

/-- If `c` occurs exactly under key `p`, `get_party_number` returns `p`. -/
theorem get_party_number_of_unique (s : Session) (c p : Nat)
    (hmem : (p, c) ∈ s.party_signups)
    (huniq : ∀ q, (q, c) ∈ s.party_signups → q = p) :
    s.get_party_number c = some p := by
  unfold Session.get_party_number
  cases hfind : s.party_signups.find? (fun kv => kv.2 = c) with
  | none =>
    exfalso
    have := List.find?_eq_none.mp hfind (p, c) hmem
    simp at this
  | some kv =>
    obtain ⟨k1, v1⟩ := kv
    have h1 : v1 = c := by simpa using List.find?_some hfind
    have h2 : (k1, v1) ∈ s.party_signups := List.mem_of_find?_eq_some hfind
    have h3 : k1 = p := huniq k1 (h1 ▸ h2)
    simp [h3]

/-- Equation for `get_next_party_number` when the scan hits a gap. -/
theorem get_next_eq_of_scan_some (s : Session) (pn : Nat)
    (h : nextScan s.occupied_party_numbers 0 = some pn) :
    s.get_next_party_number = pn := by
  unfold Session.get_next_party_number
  rw [h]

/-- Equation for `get_next_party_number` on the dense fall-through. -/
theorem get_next_eq_of_scan_none (s : Session) (party : Nat)
    (h1 : nextScan s.occupied_party_numbers 0 = none)
    (h2 : s.occupied_party_numbers.getLast? = some party) :
    s.get_next_party_number = (party + 1) % 65536 := by
  unfold Session.get_next_party_number
  rw [h1, h2]

/-- Equation for `get_next_party_number` on the empty list. -/
theorem get_next_eq_of_empty (s : Session)
    (h2 : s.occupied_party_numbers = []) :
    s.get_next_party_number = 1 := by
  unfold Session.get_next_party_number
  rw [h2]
  rfl

/-- Correctness of `get_next_party_number`: it computes the least unused positive party number
on a strictly increasing list of positive numbers that does not yet occupy
the full `u16` range; the result fits in a `u16`. -/
theorem get_next_spec (s : Session)
    (hsort : List.Sorted (· < ·) s.occupied_party_numbers)
    (hpos : ∀ x ∈ s.occupied_party_numbers, 1 ≤ x)
    (hlen : s.occupied_party_numbers.length < 65535) :
    IsLeastUnusedPositive s.occupied_party_numbers s.get_next_party_number ∧
    s.get_next_party_number < 65536 := by
  cases hscan : nextScan s.occupied_party_numbers 0 with
  | some pn =>
    have h := nextScan_some _ 0 pn hsort (fun x hx => by have := hpos x hx; omega)
      (by omega) hscan
    rw [get_next_eq_of_scan_some s pn hscan]
    exact ⟨⟨by omega, h.2.2.1, fun m hm hnm => h.2.2.2 m (by omega) hnm⟩, by omega⟩
  | none =>
    have h := nextScan_none _ 0 hscan
    cases hlast : s.occupied_party_numbers.getLast? with
    | none =>
      have hnil : s.occupied_party_numbers = [] := by
        cases he : s.occupied_party_numbers with
        | nil => rfl
        | cons a rest => rw [he] at hlast; simp [List.getLast?] at hlast
      rw [get_next_eq_of_empty s hnil, hnil]
      exact ⟨⟨le_refl 1, by simp, fun m hm _ => hm⟩, by omega⟩
    | some party =>
      have hne : s.occupied_party_numbers ≠ [] := by
        intro he
        rw [he] at hlast
        simp at hlast
      have hp : party = s.occupied_party_numbers.length := by
        have hh := h.2 hne
        rw [hlast] at hh
        injection hh with h2
        omega
      have hmod : (party + 1) % 65536 = party + 1 := by
        apply Nat.mod_eq_of_lt
        omega
      rw [get_next_eq_of_scan_none s party hscan hlast, hmod]
      refine ⟨⟨by omega, ?_, ?_⟩, by omega⟩
      · intro hc
        have := (h.1 (party + 1)).mp hc
        omega
      · intro m hm hnm
        have hmembr := (h.1 m).mpr
        by_cases hle2 : m ≤ s.occupied_party_numbers.length
        · exact absurd (hmembr ⟨by omega, by omega⟩) hnm
        · omega

/-- Effect of `add_party` with a party number fresh for both columns:
the occupied list stays strictly increasing and gains exactly `pn`, and the
map gains the binding `(pn, c)` at the end. -/
theorem add_party_state (s : Session) (c pn : Nat)
    (hsort : List.Sorted (· < ·) s.occupied_party_numbers)
    (hocc : pn ∉ s.occupied_party_numbers)
    (hkey : ∀ kv ∈ s.party_signups, kv.1 ≠ pn) :
    List.Sorted (· < ·) (s.add_party c pn).occupied_party_numbers ∧
    (∀ x, x ∈ (s.add_party c pn).occupied_party_numbers ↔
        x ∈ s.occupied_party_numbers ∨ x = pn) ∧
    (s.add_party c pn).party_signups = s.party_signups ++ [(pn, c)] := by
  have h1 := push_sort_sorted s.occupied_party_numbers pn hsort hocc
  exact ⟨h1.1, h1.2, by simp [Session.add_party, mapInsert_fresh _ _ _ hkey]⟩

/-- A client fresh for the session is found under the inserted number after
`add_party`, whatever branch `mapInsert` takes. -/
theorem signup_registers_client (s : Session) (c pn : Nat)
    (hc : s.is_client_in_session c = false) :
    (s.add_party c pn).get_party_number c = some pn ∧
    (s.add_party c pn).is_client_in_session c = true := by
  have hv := not_client_values s c hc
  have hfind := find_value_mapInsert s.party_signups pn c hv
  constructor
  · unfold Session.get_party_number
    simp only [Session.add_party]
    rw [hfind]
    rfl
  · rw [is_client_iff]
    refine ⟨(pn, c), ?_, rfl⟩
    simp only [Session.add_party]
    exact List.mem_of_find?_eq_some hfind

/-- Claim C1: on a session whose occupied list is strictly increasing, holds
positive party numbers, and has a free positive `u16` number, `signup`
returns the unique existing number of an already registered caller and
leaves the session unchanged; for a fresh caller it returns the smallest
positive integer not in `occupied_party_numbers`; and two consecutive
`signup(c)` calls return the same number, the second leaving
`|party_signups|` unchanged. -/
theorem signup_spec (s : Session) (c : Nat)
    (hsort : List.Sorted (· < ·) s.occupied_party_numbers)
    (hpos : ∀ x ∈ s.occupied_party_numbers, 1 ≤ x)
    (hlen : s.occupied_party_numbers.length < 65535) :
    (∀ p, (p, c) ∈ s.party_signups →
      (∀ q, (q, c) ∈ s.party_signups → q = p) →
      (s.signup c).2 = p ∧ (s.signup c).1 = s) ∧
    (s.is_client_in_session c = false →
      IsLeastUnusedPositive s.occupied_party_numbers (s.signup c).2) ∧
    ((s.signup c).1.signup c).2 = (s.signup c).2 ∧
    ((s.signup c).1.signup c).1.party_signups.length =
      (s.signup c).1.party_signups.length := by
  refine ⟨?_, ?_, ?_⟩
  · intro p hmem huniq
    have hc : s.is_client_in_session c = true :=
      (is_client_iff s c).mpr ⟨(p, c), hmem, rfl⟩
    have hget := get_party_number_of_unique s c p hmem huniq
    simp [Session.signup, hc, hget]
  · intro hc
    have hnext := (get_next_spec s hsort hpos hlen).1
    simp only [Session.signup, hc]
    simpa using hnext
  · by_cases hc : s.is_client_in_session c = true
    · simp [Session.signup, hc]
    · rw [Bool.not_eq_true] at hc
      have hreg := signup_registers_client s c s.get_next_party_number hc
      constructor
      · simp [Session.signup, hc, hreg.1, hreg.2]
      · simp [Session.signup, hc, hreg.2]

/-- Witness for C1: the session with occupants `{1 ↦ 7, 3 ↦ 9}`; signup of
the fresh client `8` is assigned the least unused number, and a repeated
signup returns the same number. -/
theorem signup_spec_witness :
    (List.Sorted (· < ·) [1, 3] ∧ (∀ x ∈ [1, 3], 1 ≤ (x : Nat)) ∧
      ([1, 3] : List Nat).length < 65535) ∧
    IsLeastUnusedPositive [1, 3]
      ((Session.mk 0 .Sign none [(1, 7), (3, 9)] [1, 3] []).signup 8).2 ∧
    (((Session.mk 0 .Sign none [(1, 7), (3, 9)] [1, 3] []).signup 8).1.signup 8).2 =
      ((Session.mk 0 .Sign none [(1, 7), (3, 9)] [1, 3] []).signup 8).2 :=
  ⟨⟨by decide, by decide, by decide⟩,
   (signup_spec (Session.mk 0 .Sign none [(1, 7), (3, 9)] [1, 3] []) 8
      (by decide) (by decide) (by decide)).2.1 (by decide),
   (signup_spec (Session.mk 0 .Sign none [(1, 7), (3, 9)] [1, 3] []) 8
      (by decide) (by decide) (by decide)).2.2.1⟩

/-- The binding `(k, v)` is present after `mapInsert m k v`. -/
theorem mapInsert_mem_self {α : Type} (m : List (Nat × α)) (k : Nat) (v : α) :
    (k, v) ∈ mapInsert m k v := by
  unfold mapInsert
  by_cases hk : m.any (fun kv => kv.1 = k) = true
  · rw [if_pos hk]
    simp only [List.any_eq_true, decide_eq_true_eq] at hk
    obtain ⟨kv, hkv, he⟩ := hk
    simp only [List.mem_map]
    exact ⟨kv, hkv, by simp [he]⟩
  · rw [if_neg hk]
    simp

/-!
## Claim C5 — `Session::login`
-/

/-- Claim C5: `login(c, p)` succeeds and changes nothing when `c` is already
in the session under any party number; otherwise it fails with
`PartyNumberAlreadyOccupied` exactly when `p` is occupied, and on success it
inserts `(p, c)`, keeps the occupied list sorted, and makes any further
`login` of `c` a no-op. -/
theorem login_spec (s : Session) (c p : Nat) :
    (s.is_client_in_session c = true → s.login c p = .ok s) ∧
    (s.is_client_in_session c = false →
      (s.login c p = .error (.PartyNumberAlreadyOccupied p) ↔
        p ∈ s.occupied_party_numbers) ∧
      (p ∉ s.occupied_party_numbers →
        s.login c p = .ok (s.add_party c p) ∧
        (p, c) ∈ (s.add_party c p).party_signups ∧
        List.Sorted (· ≤ ·) (s.add_party c p).occupied_party_numbers ∧
        (List.Sorted (· < ·) s.occupied_party_numbers →
          List.Sorted (· < ·) (s.add_party c p).occupied_party_numbers) ∧
        ∀ p2, (s.add_party c p).login c p2 = .ok (s.add_party c p))) := by
  constructor
  · intro hc
    simp [Session.login, hc]
  · intro hc
    constructor
    · by_cases hp : p ∈ s.occupied_party_numbers
      · simp [Session.login, hc, hp]
      · simp [Session.login, hc, hp]
    · intro hp
      have hlogin : s.login c p = .ok (s.add_party c p) := by
        simp [Session.login, hc, hp]
      refine ⟨hlogin, ?_, ?_, ?_, ?_⟩
      · simp only [Session.add_party]
        exact mapInsert_mem_self s.party_signups p c
      · simp only [Session.add_party]
        exact List.sorted_mergeSort' _
      · intro hsort
        exact (push_sort_sorted s.occupied_party_numbers p hsort hp).1
      · intro p2
        have hreg := (signup_registers_client s c p hc).2
        simp [Session.login, hreg]

/-- Witness for C5 on the session `{1 ↦ 7}`: a second login of the resident
client `7` is a no-op, party number `1` is refused for the newcomer `8`, and
`login(8, 2)` succeeds by inserting the party. -/
theorem login_spec_witness :
    (Session.mk 0 .Sign none [(1, 7)] [1] []).login 7 2 =
      .ok (Session.mk 0 .Sign none [(1, 7)] [1] []) ∧
    (Session.mk 0 .Sign none [(1, 7)] [1] []).login 8 1 =
      .error (.PartyNumberAlreadyOccupied 1) ∧
    (Session.mk 0 .Sign none [(1, 7)] [1] []).login 8 2 =
      .ok ((Session.mk 0 .Sign none [(1, 7)] [1] []).add_party 8 2) :=
  ⟨(login_spec (Session.mk 0 .Sign none [(1, 7)] [1] []) 7 2).1 (by decide),
   ((login_spec (Session.mk 0 .Sign none [(1, 7)] [1] []) 8 1).2 (by decide)).1.mpr
     (by decide),
   (((login_spec (Session.mk 0 .Sign none [(1, 7)] [1] []) 8 2).2 (by decide)).2
     (by decide)).1⟩

/-!
## Claim C3 — session invariants under the session operations
-/

/-- Counterexample to C3 as stated: the session reached from a fresh session
by `login(10, 0)`, `login(11, 1)`, `signup(12)` is reachable through the
session operations, but its occupied list `[0, 1, 1]` is not strictly
increasing: the zero login makes `get_next_party_number` return the already
occupied number `1`. -/
theorem session_invariant_violated :
    SessionReachable (Session.mk 0 .Keygen none [(0, 10), (1, 12)] [0, 1, 1] []) ∧
    ¬ SessionInvariant (Session.mk 0 .Keygen none [(0, 10), (1, 12)] [0, 1, 1] []) := by
  constructor
  · have h0 : SessionReachable (Session.new 0 .Keygen none) :=
      SessionReachable.init 0 .Keygen none
    have h1 : SessionReachable (Session.mk 0 .Keygen none [(0, 10)] [0] []) :=
      SessionReachable.login _ _ 10 0 h0 (by omega)
        (by simp [Session.new, Session.login, Session.is_client_in_session,
          Session.add_party, mapInsert, mergeSortLe_eval])
    have h2 : SessionReachable (Session.mk 0 .Keygen none [(0, 10), (1, 11)] [0, 1] []) :=
      SessionReachable.login _ _ 11 1 h1 (by omega)
        (by simp [Session.login, Session.is_client_in_session,
          Session.add_party, mapInsert, mergeSortLe_eval])
    have h3 := SessionReachable.signup _ 12 h2
    have he : ((Session.mk 0 .Keygen none [(0, 10), (1, 11)] [0, 1] []).signup 12).1 =
        Session.mk 0 .Keygen none [(0, 10), (1, 12)] [0, 1, 1] [] := by
      simp [Session.signup, Session.is_client_in_session,
        Session.get_next_party_number, nextScan, Session.add_party, mapInsert,
        mergeSortLe_eval]
    rwa [he] at h3
  · intro hinv
    have hs := hinv.1
    simp [List.sorted_cons] at hs

/-- Strengthened inductive invariant for sessions reached with positive
`u16` logins and signups below the full house: I2 together with the range
bound on party numbers. -/
theorem sessionReachablePos_inv (s : Session) (h : SessionReachablePos s) :
    SessionInvariant s ∧ ∀ x ∈ s.occupied_party_numbers, 1 ≤ x ∧ x < 65536 := by
  induction h with
  | init id kind value =>
    exact ⟨⟨by simp [Session.new], fun x => by simp [Session.new]⟩,
      by simp [Session.new]⟩
  | signup s c hr hlen ih =>
    obtain ⟨⟨hsort, hkeys⟩, hrange⟩ := ih
    by_cases hc : s.is_client_in_session c = true
    · simpa [Session.signup, hc] using ⟨⟨hsort, hkeys⟩, hrange⟩
    · rw [Bool.not_eq_true] at hc
      have hpos : ∀ x ∈ s.occupied_party_numbers, 1 ≤ x :=
        fun x hx => (hrange x hx).1
      obtain ⟨⟨h1, h2, _⟩, h4⟩ := get_next_spec s hsort hpos hlen
      have hkey : ∀ kv ∈ s.party_signups, kv.1 ≠ s.get_next_party_number := by
        intro kv hkv he
        have hmem : kv.1 ∈ s.occupied_party_numbers :=
          (hkeys kv.1).mpr (List.mem_map_of_mem _ hkv)
        rw [he] at hmem
        exact h2 hmem
      have hst := add_party_state s c s.get_next_party_number hsort h2 hkey
      have hfst : (s.signup c).1 = s.add_party c s.get_next_party_number := by
        simp [Session.signup, hc]
      rw [hfst]
      refine ⟨⟨hst.1, fun x => ?_⟩, fun x hx => ?_⟩
      · rw [hst.2.1 x, hst.2.2]
        simp only [List.map_append, List.mem_append, List.map_cons,
          List.map_nil, List.mem_singleton]
        rw [hkeys x]
      · rcases (hst.2.1 x).mp hx with hxo | hxe
        · exact hrange x hxo
        · exact hxe ▸ ⟨h1, h4⟩
  | login s s2 c p hr hp1 hp2 heq ih =>
    obtain ⟨⟨hsort, hkeys⟩, hrange⟩ := ih
    by_cases hc : s.is_client_in_session c = true
    · have hs2 : s2 = s := by
        simp [Session.login, hc] at heq
        exact heq.symm
      rw [hs2]
      exact ⟨⟨hsort, hkeys⟩, hrange⟩
    · rw [Bool.not_eq_true] at hc
      by_cases hp : p ∈ s.occupied_party_numbers
      · simp [Session.login, hc, hp] at heq
      · have hs2 : s2 = s.add_party c p := by
          simp [Session.login, hc, hp] at heq
          exact heq.symm
        have hkey : ∀ kv ∈ s.party_signups, kv.1 ≠ p := by
          intro kv hkv he
          have hmem : kv.1 ∈ s.occupied_party_numbers :=
            (hkeys kv.1).mpr (List.mem_map_of_mem _ hkv)
          rw [he] at hmem
          exact hp hmem
        have hst := add_party_state s c p hsort hp hkey
        rw [hs2]
        refine ⟨⟨hst.1, fun x => ?_⟩, fun x hx => ?_⟩
        · rw [hst.2.1 x, hst.2.2]
          simp only [List.map_append, List.mem_append, List.map_cons,
            List.map_nil, List.mem_singleton]
          rw [hkeys x]
        · rcases (hst.2.1 x).mp hx with hxo | hxe
          · exact hrange x hxo
          · exact hxe ▸ ⟨hp1, hp2⟩

/-- Claim C3 as amended: invariant I2 — `occupied_party_numbers` strictly
increasing and equal as a set to the keys of `party_signups` — holds in
every session state reachable when logins carry positive `u16` party
numbers and signups stay below the full `u16` house. -/
theorem session_invariant_preserved (s : Session) (h : SessionReachablePos s) :
    SessionInvariant s :=
  (sessionReachablePos_inv s h).1

/-- Witness for C3 (amended): the session reached by a single positive login
satisfies the invariant. -/
theorem session_invariant_preserved_witness :
    SessionReachablePos (Session.mk 0 .Keygen none [(1, 10)] [1] []) ∧
    SessionInvariant (Session.mk 0 .Keygen none [(1, 10)] [1] []) := by
  have h0 := SessionReachablePos.init 0 .Keygen none
  have h1 : SessionReachablePos (Session.mk 0 .Keygen none [(1, 10)] [1] []) :=
    SessionReachablePos.login _ _ 10 1 h0 (by omega) (by omega)
      (by simp [Session.new, Session.login, Session.is_client_in_session,
        Session.add_party, mapInsert, mergeSortLe_eval])
  exact ⟨h1, session_invariant_preserved _ h1⟩

/-- Claim C2: for every valid `Parameters (n, t)` and every party count `p`,
`threshold_reached(Keygen, p)` holds iff `p = n`, and
`threshold_reached(Sign, p)` holds iff `p > t`. -/
theorem threshold_reached_iff (p : Parameters) (_hvalid : p.validate = .ok ())
    (parties : Nat) :
    (p.threshold_reached .Keygen parties = true ↔ parties = p.n) ∧
    (p.threshold_reached .Sign parties = true ↔ p.t < parties) := by
  constructor
  · simp [Parameters.threshold_reached]
  · simp [Parameters.threshold_reached]

/-- Witness for C2 at the concrete valid parameters `(n = 3, t = 1)` with
three signed-up parties. -/
theorem threshold_reached_iff_witness :
    (Parameters.mk 3 1).validate = .ok () ∧
    (((Parameters.mk 3 1).threshold_reached .Keygen 3 = true ↔
        3 = (Parameters.mk 3 1).n) ∧
     ((Parameters.mk 3 1).threshold_reached .Sign 3 = true ↔
        (Parameters.mk 3 1).t < 3)) :=
  ⟨by decide, threshold_reached_iff (Parameters.mk 3 1) (by decide) 3⟩

/-!
## Claim C8 — parameter validation
-/

/-- Claim C8: `Parameters::new(n, t)` succeeds iff `n ≥ 2` and `0 < t < n`;
`n < 2` yields `InvalidParties` (this check comes first), and `n ≥ 2` with
`t = 0` or `t ≥ n` yields `InvalidThreshold`. -/
theorem parameters_new_spec (n t : Nat) :
    (Parameters.new n t = .ok (Parameters.mk n t) ↔ 2 ≤ n ∧ 0 < t ∧ t < n) ∧
    (n < 2 → Parameters.new n t = .error (.InvalidParties n)) ∧
    (2 ≤ n → (t = 0 ∨ n ≤ t) →
      Parameters.new n t = .error (.InvalidThreshold t)) := by
  unfold Parameters.new Parameters.validate
  by_cases h1 : n < 2 <;> by_cases h2 : t = 0 ∨ n ≤ t <;>
    simp [h1, h2] <;> omega

/-- Witness for C8 at the boundary instances demanded by the claim:
`(2, 1)` accepted, `(1, 5)` rejected as `InvalidParties`, `(2, 0)` and
`(2, 2)` rejected as `InvalidThreshold`. -/
theorem parameters_new_spec_witness :
    Parameters.new 2 1 = .ok (Parameters.mk 2 1) ∧
    Parameters.new 1 5 = .error (.InvalidParties 1) ∧
    Parameters.new 2 0 = .error (.InvalidThreshold 0) ∧
    Parameters.new 2 2 = .error (.InvalidThreshold 2) :=
  ⟨(parameters_new_spec 2 1).1.mpr (by omega),
   (parameters_new_spec 1 5).2.1 (by omega),
   (parameters_new_spec 2 0).2.2 (by omega) (Or.inl rfl),
   (parameters_new_spec 2 2).2.2 (by omega) (Or.inr (by omega))⟩

/-!
## Claim C7 — `Group::add_client`
-/

/-- Counterexample to C7 as stated: in a full group (`n = 2`, clients
`{1, 2}`), re-inserting the existing member `1` does not succeed — the
fullness check precedes the membership check, so `add_client(1)` returns
`GroupFull` even though `1` is already in the group. -/
theorem add_client_full_member_rejected :
    1 ∈ (Group.mk 0 (Parameters.mk 2 1) [] [1, 2]).clients ∧
    (Group.mk 0 (Parameters.mk 2 1) [] [1, 2]).add_client 1 =
      .error .GroupFull := by
  constructor
  · decide
  · simp [Group.add_client]

/-- Claim C7 as amended: `add_client(c)` inserts `c` iff `|clients| < n`
(returning `GroupFull` otherwise), and re-insertion of an existing member is
idempotent whenever the group is not yet full; a full group rejects even its
own members. -/
theorem add_client_spec (g : Group) (c : Nat) :
    (g.clients.length < g.params.n →
      g.add_client c = .ok { g with clients := setInsert g.clients c } ∧
      c ∈ setInsert g.clients c) ∧
    (g.params.n ≤ g.clients.length → g.add_client c = .error .GroupFull) ∧
    (c ∈ g.clients → g.clients.length < g.params.n → g.add_client c = .ok g) := by
  refine ⟨fun h => ?_, fun h => ?_, fun hc h => ?_⟩
  · constructor
    · simp [Group.add_client, Nat.not_le.mpr h]
    · by_cases hm : c ∈ g.clients <;> simp [setInsert, hm]
  · simp [Group.add_client, h]
  · simp [Group.add_client, Nat.not_le.mpr h, setInsert, hc]

/-- Witness for C7 (amended) on a group with room: `n = 2`, single member
`5`; re-inserting `5` succeeds and changes nothing. -/
theorem add_client_spec_witness :
    (5 ∈ (Group.mk 0 (Parameters.mk 2 1) [] [5]).clients ∧
     (Group.mk 0 (Parameters.mk 2 1) [] [5]).clients.length <
       (Group.mk 0 (Parameters.mk 2 1) [] [5]).params.n) ∧
    (Group.mk 0 (Parameters.mk 2 1) [] [5]).add_client 5 =
      .ok (Group.mk 0 (Parameters.mk 2 1) [] [5]) :=
  ⟨⟨by decide, by decide⟩,
   (add_client_spec (Group.mk 0 (Parameters.mk 2 1) [] [5]) 5).2.2
     (by decide) (by decide)⟩

/-!
## Claim C9 — party numbers are at least 1
-/

/-- Claim C9 (code bug): `Session::login` performs no lower-bound check on
the client-supplied party number: on a fresh session, `login(client 20,
party 0)` succeeds and records party number `0` in both `party_signups` and
`occupied_party_numbers`, contradicting the documented invariant that party
numbers start at 1. -/
theorem login_accepts_party_number_zero :
    (Session.new 0 .Keygen none).login 20 0 =
      .ok { id := 0, kind := .Keygen, value := none,
            party_signups := [(0, 20)], occupied_party_numbers := [0],
            finished := [] } := by
  simp [Session.login, Session.new, Session.is_client_in_session,
    Session.add_party, mapInsert, mergeSortLe_eval]

/-!
## Claim C6 — `State::drop_client` cleanup
-/

/-- Claim C6: after `drop_client(c)`, no remaining group contains `c`, the
dropped image of any group that became empty is absent from the registry,
and `c` is gone from the client table. -/
theorem drop_client_cleanup (st : State) (c : Nat) :
    (∀ gp ∈ (st.drop_client c).groups, c ∉ gp.2.clients) ∧
    (∀ gp ∈ st.groups, (gp.2.drop_client c).is_empty = true →
      (gp.1, gp.2.drop_client c) ∉ (st.drop_client c).groups) ∧
    c ∉ (st.drop_client c).clients := by
  refine ⟨?_, ?_, ?_⟩
  · intro gp hgp
    simp only [State.drop_client, List.mem_filter, List.mem_map] at hgp
    obtain ⟨⟨gp0, _, he⟩, _⟩ := hgp
    rw [← he]
    simp [Group.drop_client]
  · intro gp _ hemp hmem
    simp only [State.drop_client, List.mem_filter] at hmem
    have := hmem.2
    rw [hemp] at this
    simp at this
  · simp [State.drop_client]

/-- Witness for C6: dropping client `9` from a registry with one group owned
solely by `9` and one shared group removes the first group, scrubs `9` from
the second, and removes `9` from the client table. -/
theorem drop_client_cleanup_witness :
    (∀ gp ∈ ((State.mk [9, 5]
        [(1, Group.mk 1 (Parameters.mk 2 1) [] [9]),
         (2, Group.mk 2 (Parameters.mk 2 1) [] [9, 5])]).drop_client 9).groups,
      9 ∉ gp.2.clients) ∧
    9 ∉ ((State.mk [9, 5]
        [(1, Group.mk 1 (Parameters.mk 2 1) [] [9]),
         (2, Group.mk 2 (Parameters.mk 2 1) [] [9, 5])]).drop_client 9).clients ∧
    ((State.mk [9, 5]
        [(1, Group.mk 1 (Parameters.mk 2 1) [] [9]),
         (2, Group.mk 2 (Parameters.mk 2 1) [] [9, 5])]).drop_client 9).groups =
      [(2, Group.mk 2 (Parameters.mk 2 1) [] [5])] :=
  ⟨(drop_client_cleanup (State.mk [9, 5]
      [(1, Group.mk 1 (Parameters.mk 2 1) [] [9]),
       (2, Group.mk 2 (Parameters.mk 2 1) [] [9, 5])]) 9).1,
   (drop_client_cleanup (State.mk [9, 5]
      [(1, Group.mk 1 (Parameters.mk 2 1) [] [9]),
       (2, Group.mk 2 (Parameters.mk 2 1) [] [9, 5])]) 9).2.2,
   by simp [State.drop_client, Group.drop_client, Group.is_empty]⟩

/-!
## Claim C10 — every registry group has valid parameters
-/

/-- Membership after `mapInsert`: the new binding or an old one. -/
theorem mem_mapInsert {α : Type} (m : List (Nat × α)) (k : Nat) (v : α)
    (x : Nat × α) (h : x ∈ mapInsert m k v) : x = (k, v) ∨ x ∈ m := by
  unfold mapInsert at h
  by_cases hk : m.any (fun kv => kv.1 = k) = true
  · rw [if_pos hk] at h
    simp only [List.mem_map] at h
    obtain ⟨kv, hkv, he⟩ := h
    by_cases hkk : kv.1 = k
    · left
      rw [← he]
      simp [hkk]
    · right
      rw [← he]
      simpa [hkk] using hkv
  · rw [if_neg hk] at h
    rcases List.mem_append.mp h with h2 | h2
    · right; exact h2
    · left; simpa using h2

/-- A successful `mapGet` returns the value of some binding of the map. -/
theorem mapGet_mem {α : Type} (m : List (Nat × α)) (k : Nat) (v : α)
    (h : mapGet m k = some v) : ∃ kv ∈ m, kv.2 = v := by
  unfold mapGet at h
  cases hf : m.find? (fun kv => kv.1 = k) with
  | none => rw [hf] at h; simp at h
  | some kv =>
    rw [hf] at h
    simp at h
    exact ⟨kv, List.mem_of_find?_eq_some hf, h⟩

/-- Lemma: `add_client` never changes the group's parameters. -/
theorem add_client_params (g g2 : Group) (c : Nat)
    (h : g.add_client c = .ok g2) : g2.params = g.params := by
  unfold Group.add_client at h
  by_cases hf : g.params.n ≤ g.clients.length
  · rw [if_pos hf] at h
    exact absurd h (by simp)
  · rw [if_neg hf] at h
    injection h with h2
    rw [← h2]

/-- Registry states reachable through the state operations as driven by the
handlers; `add_group` is only performed by `group_create`, which validates
the wire parameters first, so its constructor carries that guard. -/
inductive Reachable : State → Prop
  | init : Reachable State.empty
  | register (st : State) (c : Nat) :
      Reachable st → Reachable (st.register_client c)
  | drop (st : State) (c : Nat) :
      Reachable st → Reachable (st.drop_client c)
  | groupCreate (st : State) (gid : Nat) (p : Parameters) :
      Reachable st → p.validate = .ok () → Reachable (st.add_group gid p).1
  | groupJoin (st st2 : State) (gid c : Nat) (g : Group) :
      Reachable st → st.join_group gid c = .ok (st2, g) → Reachable st2
  | sessionCreate (st st2 : State) (gid sid : Nat) (kind : SessionKind)
      (value : SessionValue) (g : Group) (s : Session) :
      Reachable st → st.add_session gid sid kind value = .ok (st2, g, s) →
      Reachable st2
  | sessionSignup (st st2 : State) (c gid sid : Nat) (g : Group) (s : Session)
      (pn : Nat) (b : Bool) :
      Reachable st → st.signup_session c gid sid = .ok (st2, g, s, pn, b) →
      Reachable st2
  | sessionLogin (st st2 : State) (c gid sid pn : Nat) (g : Group) (s : Session)
      (b : Bool) :
      Reachable st → st.login_session c gid sid pn = .ok (st2, g, s, b) →
      Reachable st2

/-- Claim C10: in every reachable registry state, every stored group has
parameters that pass validation — the only insertion path validates them
and no operation mutates them. -/
theorem reachable_groups_valid (st : State) (h : Reachable st) :
    ∀ gp ∈ st.groups, gp.2.params.validate = .ok () := by
  induction h with
  | init => simp [State.empty]
  | register st c _ ih => simpa [State.register_client] using ih
  | drop st c _ ih =>
    intro gp hgp
    simp only [State.drop_client, List.mem_filter, List.mem_map] at hgp
    obtain ⟨⟨gp0, hgp0, he⟩, _⟩ := hgp
    have hv := ih gp0 hgp0
    rw [← he]
    simpa [Group.drop_client] using hv
  | groupCreate st gid p _ hv ih =>
    intro gp hgp
    simp only [State.add_group] at hgp
    rcases mem_mapInsert _ _ _ _ hgp with he | hm
    · rw [he]
      simpa [Group.new] using hv
    · exact ih gp hm
  | groupJoin st st2 gid c g _ heq ih =>
    unfold State.join_group at heq
    cases hmg : mapGet st.groups gid with
    | none =>
      simp only [hmg] at heq
      exact absurd heq (by simp)
    | some g0 =>
      simp only [hmg] at heq
      by_cases hful : g0.is_full = true
      · simp only [if_pos hful] at heq
        exact absurd heq (by simp)
      · simp only [if_neg hful] at heq
        cases hac : g0.add_client c with
        | error e =>
          simp only [hac] at heq
          exact absurd heq (by simp)
        | ok g2 =>
          simp only [hac] at heq
          injection heq with h2
          injection h2 with h3 h4
          intro gp hgp
          rw [← h3] at hgp
          rcases mem_mapInsert _ _ _ _ hgp with he | hm
          · obtain ⟨kv, hkv, hkve⟩ := mapGet_mem _ _ _ hmg
            have hp2 : g2.params = g0.params := add_client_params g0 g2 c hac
            have hvv := ih kv hkv
            rw [hkve] at hvv
            rw [he]
            simpa [hp2] using hvv
          · exact ih gp hm
  | sessionCreate st st2 gid sid kind value g s _ heq ih =>
    unfold State.add_session at heq
    cases hmg : mapGet st.groups gid with
    | none =>
      simp only [hmg] at heq
      exact absurd heq (by simp)
    | some g0 =>
      simp only [hmg, Group.add_session] at heq
      injection heq with h2
      injection h2 with h3 h4
      intro gp hgp
      rw [← h3] at hgp
      rcases mem_mapInsert _ _ _ _ hgp with he | hm
      · obtain ⟨kv, hkv, hkve⟩ := mapGet_mem _ _ _ hmg
        have hvv := ih kv hkv
        rw [hkve] at hvv
        rw [he]
        simpa using hvv
      · exact ih gp hm
  | sessionSignup st st2 c gid sid g s pn b _ heq ih =>
    unfold State.signup_session at heq
    cases hmg : mapGet st.groups gid with
    | none =>
      simp only [hmg] at heq
      exact absurd heq (by simp)
    | some g0 =>
      simp only [hmg] at heq
      cases hms : mapGet g0.sessions sid with
      | none =>
        simp only [hms] at heq
        exact absurd heq (by simp)
      | some s0 =>
        simp only [hms] at heq
        cases hsp : s0.signup c with
        | mk s2 pn2 =>
          simp only [hsp] at heq
          injection heq with h2
          injection h2 with h3 h4
          intro gp hgp
          rw [← h3] at hgp
          rcases mem_mapInsert _ _ _ _ hgp with he | hm
          · obtain ⟨kv, hkv, hkve⟩ := mapGet_mem _ _ _ hmg
            have hvv := ih kv hkv
            rw [hkve] at hvv
            rw [he]
            simpa using hvv
          · exact ih gp hm
  | sessionLogin st st2 c gid sid pn g s b _ heq ih =>
    unfold State.login_session at heq
    cases hmg : mapGet st.groups gid with
    | none =>
      simp only [hmg] at heq
      exact absurd heq (by simp)
    | some g0 =>
      simp only [hmg] at heq
      cases hms : mapGet g0.sessions sid with
      | none =>
        simp only [hms] at heq
        exact absurd heq (by simp)
      | some s0 =>
        simp only [hms] at heq
        cases hlg : s0.login c pn with
        | error e =>
          cases e with
          | PartyNumberAlreadyOccupied pn2 =>
            simp only [hlg] at heq
            exact absurd heq (by simp)
        | ok s2 =>
          simp only [hlg] at heq
          injection heq with h2
          injection h2 with h3 h4
          intro gp hgp
          rw [← h3] at hgp
          rcases mem_mapInsert _ _ _ _ hgp with he | hm
          · obtain ⟨kv, hkv, hkve⟩ := mapGet_mem _ _ _ hmg
            have hvv := ih kv hkv
            rw [hkve] at hvv
            rw [he]
            simpa using hvv
          · exact ih gp hm

/-- Witness for C10: the registry holding one group created with the
validated parameters `(n = 3, t = 2)` is reachable, and its groups all
validate. -/
theorem reachable_groups_valid_witness :
    Reachable (State.empty.add_group 5 (Parameters.mk 3 2)).1 ∧
    ∀ gp ∈ (State.empty.add_group 5 (Parameters.mk 3 2)).1.groups,
      gp.2.params.validate = .ok () :=
  ⟨Reachable.groupCreate State.empty 5 (Parameters.mk 3 2) Reachable.init (by rfl),
   reachable_groups_valid (State.empty.add_group 5 (Parameters.mk 3 2)).1
     (Reachable.groupCreate State.empty 5 (Parameters.mk 3 2) Reachable.init (by rfl))⟩

/-!
## Claim C4 — `session_message` and responses
-/

/-- Counterexample to C4 as stated: a `session_message` whose group lookup
fails does produce a JSON-RPC reply — the handler returns `InvalidParams`,
which `serve` converts into an error response carrying the request id. -/
theorem session_message_error_gets_reply :
    serve_session_message State.empty
      (SessionMessageRequest.mk (some 1) 0 0 none (Value.num 42)) [] 9 =
      (some (.failure (some 1) (.invalidParams (some 1) (.GroupNotFound 0))), []) := by
  rfl

/-- Claim C4 as amended: `session_message` yields no response exactly on the
successful path — a handler success carries no response and `serve` forwards
none — while any failure of party-number resolution, group/session
validation, or receiver resolution produces an error response to the
caller. -/
theorem session_message_reply_iff (st : State) (req : SessionMessageRequest)
    (notifs : List Notification) (c : Nat) :
    (∀ out, session_message st req notifs c = .ok out →
      out.1 = none ∧ serve_session_message st req notifs c = (none, out.2)) ∧
    (∀ e, session_message st req notifs c = .error e →
      serve_session_message st req notifs c =
        (some (.failure req.id e), notifs)) := by
  constructor
  · intro out hout
    have h1 : out.1 = none := by
      unfold session_message at hout
      cases h2 : st.get_party_number_from_client_id req.group_id req.session_id c with
      | error e =>
        simp only [h2] at hout
        exact absurd hout (by simp)
      | ok pn =>
        simp only [h2] at hout
        cases h3 : st.validate_group_and_session req.group_id req.session_id with
        | error e =>
          simp only [h3] at hout
          exact absurd hout (by simp)
        | ok u =>
          simp only [h3] at hout
          cases hrecv : req.receiver with
          | some pn2 =>
            simp only [hrecv] at hout
            cases h4 : st.get_client_id_from_party_number req.group_id
                req.session_id pn2 with
            | error e =>
              simp only [h4] at hout
              exact absurd hout (by simp)
            | ok rc =>
              simp only [h4] at hout
              injection hout with h5
              rw [← h5]
          | none =>
            simp only [hrecv] at hout
            injection hout with h5
            rw [← h5]
    refine ⟨h1, ?_⟩
    unfold serve_session_message
    rw [hout, ← h1]
  · intro e he
    unfold serve_session_message
    rw [he]

/-- Witness for C4 (amended): in a registry holding group `3` with session
`4` occupied by parties `{1 ↦ 9, 2 ↦ 8}`, a broadcast `session_message` from
client `9` succeeds, produces no response, and queues one `Session`
notification. -/
theorem session_message_reply_iff_witness :
    session_message
      (State.mk [9, 8]
        [(3, Group.mk 3 (Parameters.mk 2 1)
          [(4, Session.mk 4 .Sign none [(1, 9), (2, 8)] [1, 2] [])] [9, 8])])
      (SessionMessageRequest.mk (some 7) 3 4 none (Value.num 42)) [] 9 =
      .ok (none, [.session 3 4 [] "session_message" (Value.sessionMsg 3 4 1 (Value.num 42))]) ∧
    serve_session_message
      (State.mk [9, 8]
        [(3, Group.mk 3 (Parameters.mk 2 1)
          [(4, Session.mk 4 .Sign none [(1, 9), (2, 8)] [1, 2] [])] [9, 8])])
      (SessionMessageRequest.mk (some 7) 3 4 none (Value.num 42)) [] 9 =
      (none, [.session 3 4 [] "session_message" (Value.sessionMsg 3 4 1 (Value.num 42))]) :=
  ⟨by rfl,
   ((session_message_reply_iff
      (State.mk [9, 8]
        [(3, Group.mk 3 (Parameters.mk 2 1)
          [(4, Session.mk 4 .Sign none [(1, 9), (2, 8)] [1, 2] [])] [9, 8])])
      (SessionMessageRequest.mk (some 7) 3 4 none (Value.num 42)) [] 9).1
      (none, [.session 3 4 [] "session_message" (Value.sessionMsg 3 4 1 (Value.num 42))])
      (by rfl)).2⟩

end Mpc
